import Mathlib

/-!
# Verification of the hop-spec configuration and reconciliation core

A shallow embedding of the hop-spec repository's configuration resolution
and filesystem-reconciliation engine, together with proofs about it.

Embedded components and their sources:
* the locator (`discoverHopPath`) and loader (`loadHopConfig`) from the
  core discovery module;
* the helper layer (`normalizeInfraRepo`, `infraRepoName`, `collectSystems`)
  from `packages/hop-core/src/helpers.ts`;
* the reconciler (`getRegisteredPaths`, `getManagedDirs`, `listChildDirs`,
  `hasGit`, `scanForStrays`, the audit classification and the exit-status
  policy of `runAudit`) from `packages/hop-cli/src/cli.ts`;
* the bundle-resolution tool (`hop_get_bundle`) from
  `packages/hop-mcp/src/index.ts`.

Modelling conventions:
* A filesystem path is a `List String` of components below the root; paths
  in play are canonical and absolute, so Node's `resolve` is the identity
  on them, `join dir name` appends one component, `dirname` drops the last
  component (with the root as its own parent), and `basename` is the last
  component.
* The filesystem is an oracle (`FS`): `readdir` returns the directory
  entries of a path or `none` when the listing throws (unreadable), and
  `existsSync` is a boolean predicate on paths.  Single-threaded code
  (spec section 5) sees one fixed filesystem state per invocation.
* JavaScript truthiness on optional string fields is explicit:
  `undefined` and `""` are both falsy (`strTruthy`).  Path-valued optional
  fields are `Option Path` where `none` stands for an absent field (every
  use in the source guards with a truthiness check before touching the
  value, so an empty-string path behaves identically to an absent one).
* A JavaScript `Set<string>` used only through `add` and `has` is a
  `List Path` with `contains`: insertion dedup does not change membership.
* A JavaScript `Map` with insertion order is an association list.
* Structure fields that no embedded operation consults are omitted.
-/

namespace HopSpec

/-- A canonical absolute filesystem path, as its list of components. -/
abbrev Path := List String

/-- JavaScript truthiness of an optional string: `undefined` and `""` are
falsy, every other string is truthy. -/
def strTruthy : Option String → Bool
  | none => false
  | some s => s ≠ ""

/-- `path.join(dir, name)` for a single component. -/
def joinPath (dir : Path) (n : String) : Path := dir ++ [n]

/-- Node `resolve` on a canonical absolute path is the identity. -/
def resolvePath (p : Path) : Path := p

/-- `path.basename`: the last component. -/
def basename (p : Path) : String := p.getLastD ""

/-- Rendering of a path back to its string form, used where the source
stores a path into a string-typed field. -/
def pathToString (p : Path) : String := "/" ++ String.intercalate "/" p

/-! ## Data model (types.ts) -/

/-- A project entry (fields consulted by the embedded operations). -/
structure Project where
  name : String
  path : Option Path := none
  type : Option String := none
  system : Option String := none
  deriving Repr, DecidableEq

/-- An infra-repo entry in record form. -/
structure InfraRepoEntry where
  name : String
  system : Option String := none
  description : Option String := none
  upstream : Option String := none
  deriving Repr, DecidableEq

/-- The polymorphic infra-repo entry as it appears in the document:
either a bare name or a record (`string | InfraRepoEntry`). -/
inductive InfraRepoInput where
  | str (s : String)
  | record (e : InfraRepoEntry)
  deriving Repr, DecidableEq

/-- The `infra_repos` block. -/
structure InfraRepos where
  path : Option Path := none
  readonly : Option Bool := none
  sync : Option String := none
  repos : Option (List InfraRepoInput) := none
  deriving Repr, DecidableEq

/-- The machine identity record (post-load: `id` and `name` present). -/
structure Machine where
  id : String
  name : String
  agent_root : Option Path := none
  deriving Repr, DecidableEq

/-- A bundle: a named list of project-name references. -/
structure Bundle where
  id : String
  name : String
  description : Option String := none
  projects : List String
  primary_project : Option String := none
  deriving Repr, DecidableEq

/-- The loaded configuration document. -/
structure HopConfig where
  schema_version : String
  machine : Machine
  projects : Option (List Project) := none
  bundles : Option (List Bundle) := none
  infra_repos : Option InfraRepos := none
  deriving Repr, DecidableEq

/-! ## Helpers (packages/hop-core/src/helpers.ts) -/

/-- `normalizeInfraRepo`: a bare string becomes `{name}`, a record is
returned unchanged. -/
def normalizeInfraRepo : InfraRepoInput → InfraRepoEntry
  | .str s => { name := s }
  | .record e => e

/-- `infraRepoName`: the name of an entry regardless of format. -/
def infraRepoName : InfraRepoInput → String
  | .str s => s
  | .record e => e.name

/-- One bucket of `collectSystems`. -/
structure SystemGroup where
  projects : List Project
  infraRepos : List InfraRepoEntry
  deriving Repr, DecidableEq

/-- `ensureSystem` followed by a push: update the bucket under `key`
in place if present, otherwise append a fresh bucket updated the same
way (JavaScript `Map` preserves insertion order). -/
def addToSystem (m : List (String × SystemGroup)) (key : String)
    (upd : SystemGroup → SystemGroup) : List (String × SystemGroup) :=
  if m.any (fun kv => kv.1 = key) then
    m.map (fun kv => if kv.1 = key then (kv.1, upd kv.2) else kv)
  else
    m ++ [(key, upd ⟨[], []⟩)]

/-- The body of the first `collectSystems` loop: bucket one project by
its truthy `system` tag. -/
def projectStep (m : List (String × SystemGroup)) (project : Project) :
    List (String × SystemGroup) :=
  match project.system with
  | some s =>
      if s ≠ "" then
        addToSystem m s (fun g => { g with projects := g.projects ++ [project] })
      else m
  | none => m

/-- The body of the second `collectSystems` loop: normalize one infra
repo and bucket it by its truthy `system` tag. -/
def infraStep (m : List (String × SystemGroup)) (repo : InfraRepoInput) :
    List (String × SystemGroup) :=
  let normalized := normalizeInfraRepo repo
  match normalized.system with
  | some s =>
      if s ≠ "" then
        addToSystem m s (fun g => { g with infraRepos := g.infraRepos ++ [normalized] })
      else m
  | none => m

/-- `collectSystems`: group projects and (normalized) infra repos by
their truthy `system` tag, in document encounter order. -/
def collectSystems (config : HopConfig) : List (String × SystemGroup) :=
  ((config.infra_repos.bind (·.repos)).getD []).foldl infraStep
    ((config.projects.getD []).foldl projectStep [])

/-! ## Filesystem oracle -/

/-- One `readdirSync(..., {withFileTypes: true})` entry. -/
structure DirEntry where
  name : String
  isDirectory : Bool
  deriving Repr, DecidableEq

/-- The observed filesystem: `readdir` lists a directory's entries or
`none` when the listing throws; `existsSync` tests existence; `home` is
the user's home directory. -/
structure FS where
  readdir : Path → Option (List DirEntry)
  existsSync : Path → Bool
  home : Path

/-! ## Reconciler (packages/hop-cli/src/cli.ts) -/

/-- The fixed `SKIP_NAMES` noise set. -/
def SKIP_NAMES : List String :=
  ["node_modules", ".git", "dist", "build", "target", ".venv", "venv",
   "__pycache__", ".cache", ".npm", ".nvm", ".bun", ".local",
   ".config", ".ssh", ".gnupg", "snap"]

/-- The hidden-name test `name.startsWith "."`: since the marker is a
single character, this is exactly "the first character is a dot". -/
def startsWithDot (s : String) : Bool :=
  match s.data with
  | [] => false
  | c :: _ => c = '.'

/-- One audit discrepancy record. -/
structure AuditEntry where
  name : String
  path : Path
  source : String
  has_git : Bool
  deriving Repr, DecidableEq

/-- The structured audit result. -/
structure AuditResult where
  orphans : List AuditEntry
  stale : List AuditEntry
  strays : List AuditEntry
  managed_dirs : List Path
  deriving Repr, DecidableEq

/-- The first half of `getRegisteredPaths`: every project's resolved
truthy `path`, in document order. -/
def projectRegisteredPaths (config : HopConfig) : List Path :=
  (config.projects.getD []).foldl
    (fun acc p =>
      match p.path with
      | some pp => acc ++ [resolvePath pp]
      | none => acc)
    []

/-- `getRegisteredPaths`: every project's resolved truthy `path`, plus
`join(infra_repos.path, name)` for each infra repo when the base path is
set. -/
def getRegisteredPaths (config : HopConfig) : List Path :=
  match config.infra_repos.bind (·.path) with
  | some infraBase =>
      projectRegisteredPaths config ++
        ((config.infra_repos.bind (·.repos)).getD []).map
          (fun entry => resolvePath (joinPath infraBase (infraRepoName entry)))
  | none => projectRegisteredPaths config

/-- `getManagedDirs`: `machine.agent_root` then `infra_repos.path`, each
only if it exists on disk, deduplicated. -/
def getManagedDirs (fs : FS) (config : HopConfig) : List Path :=
  let dirs :=
    match config.machine.agent_root with
    | some ar =>
        let p := resolvePath ar
        if fs.existsSync p then [p] else []
    | none => []
  match config.infra_repos.bind (·.path) with
  | some ip =>
      let p := resolvePath ip
      if fs.existsSync p && !dirs.contains p then dirs ++ [p] else dirs
  | none => dirs

/-- `listChildDirs`: the immediate child directories of `dir`, skipping
hidden names and the noise set; an unreadable directory (the `catch`
branch) yields the empty list. -/
def listChildDirs (fs : FS) (dir : Path) : List Path :=
  match fs.readdir dir with
  | none => []
  | some entries =>
      (entries.filter
          (fun e => e.isDirectory && ! startsWithDot e.name && !SKIP_NAMES.contains e.name)).map
        (fun e => resolvePath (joinPath dir e.name))

/-- `hasGit`: whether `dir/.git` exists. -/
def hasGit (fs : FS) (dir : Path) : Bool :=
  fs.existsSync (joinPath dir ".git")

/-- The stray entries contributed by one home-directory child `dir` in
`scanForStrays`: a managed child is skipped; an unregistered git child is
itself a stray and is not descended into; any other child is descended
one level, where each non-managed unregistered git grandchild is a
stray. -/
def strayChildScan (fs : FS) (registeredPaths managedDirs : List Path)
    (dir : Path) : List AuditEntry :=
  if managedDirs.contains dir then []
  else if hasGit fs dir && !registeredPaths.contains dir then
    [{ name := basename dir, path := dir, source := "~/" ++ basename dir, has_git := true }]
  else
    ((listChildDirs fs dir).filter
        (fun sub => !managedDirs.contains sub && (hasGit fs sub && !registeredPaths.contains sub))).map
      (fun sub =>
        { name := basename sub, path := sub,
          source := "~/" ++ basename dir ++ "/" ++ basename sub, has_git := true })

/-- `scanForStrays`: scan the home directory's children, collecting each
child's contribution. -/
def scanForStrays (fs : FS) (registeredPaths managedDirs : List Path) :
    List AuditEntry :=
  (listChildDirs fs fs.home).flatMap (strayChildScan fs registeredPaths managedDirs)

/-- The directories on which `scanForStrays` calls `listChildDirs`:
the home directory always, and each non-managed child that is not an
unregistered git repository (the `continue` cases never descend). -/
def scanExaminedDirs (fs : FS) (registeredPaths managedDirs : List Path) :
    List Path :=
  fs.home ::
    (listChildDirs fs fs.home).filter
      (fun dir =>
        !managedDirs.contains dir &&
          !(hasGit fs dir && !registeredPaths.contains dir))

/-- The orphan entries reported for one managed directory: every listed
child whose resolved path is not registered. -/
def orphansForDir (fs : FS) (registeredPaths : List Path) (managedDir : Path) :
    List AuditEntry :=
  ((listChildDirs fs managedDir).filter
      (fun child => !registeredPaths.contains child)).map
    (fun child =>
      { name := basename child, path := child,
        source := pathToString managedDir, has_git := hasGit fs child })

/-- The stale entries: each project with a truthy `path` that does not
exist on disk. -/
def staleEntries (fs : FS) (config : HopConfig) : List AuditEntry :=
  (config.projects.getD []).filterMap
    (fun p =>
      match p.path with
      | some pp =>
          if !fs.existsSync pp then
            some { name := p.name, path := pp, source := "projects", has_git := false }
          else none
      | none => none)

/-- The audit classification computed by `runAudit` before output:
orphans per managed directory, stale projects, and (when scanning) the
stray scan. -/
def computeAudit (fs : FS) (config : HopConfig) (scan : Bool) : AuditResult :=
  let registeredPaths := getRegisteredPaths config
  let managedDirs := getManagedDirs fs config
  { orphans := managedDirs.flatMap (orphansForDir fs registeredPaths)
    stale := staleEntries fs config
    strays := if scan then scanForStrays fs registeredPaths managedDirs else []
    managed_dirs := managedDirs }

/-- The output options of `runAudit`. -/
structure AuditOptions where
  json : Bool := false
  scan : Bool := false
  deriving Repr, DecidableEq

/-- The process exit code produced by `runAudit`: the JSON branch prints
and returns before the exit-code logic, so it always leaves the success
code; the human-readable branch sets code 1 exactly when orphans or
stale entries exist. -/
def runAuditExitCode (fs : FS) (config : HopConfig) (opts : AuditOptions) : Nat :=
  let result := computeAudit fs config opts.scan
  if opts.json then 0
  else if result.orphans.length > 0 || result.stale.length > 0 then 1 else 0

/-! ## Loader (discovery module, `loadHopConfig`) -/

/-- The machine object as it looks straight out of `JSON.parse`, before
the loader's checks: every field may be absent. -/
structure RawMachine where
  id : Option String := none
  name : Option String := none
  agent_root : Option Path := none
  deriving Repr, DecidableEq

/-- The document as it looks straight out of `JSON.parse`, before the
loader's checks. -/
structure RawConfig where
  schema_version : Option String := none
  machine : Option RawMachine := none
  projects : Option (List Project) := none
  bundles : Option (List Bundle) := none
  infra_repos : Option InfraRepos := none
  deriving Repr, DecidableEq

/-- The failure conditions of the loader: a JSON parse failure is a
distinct condition from a missing required field. -/
inductive LoadError where
  | parseError (msg : String)
  | missingRequiredField (msg : String)
  deriving Repr, DecidableEq

/-- `loadHopConfig`: the input is the outcome of `JSON.parse` on the
file's contents (`none` models the parse throwing).  The only checks are
JavaScript-truthiness of `schema_version` and of `machine?.id` /
`machine?.name`; on success the parsed document is returned unchanged. -/
def loadHopConfig (parsed : Option RawConfig) : Except LoadError RawConfig :=
  match parsed with
  | none => .error (.parseError "invalid JSON")
  | some config =>
      if !strTruthy config.schema_version then
        .error (.missingRequiredField "hop.json missing required field: schema_version")
      else if !strTruthy (config.machine.bind (·.id)) ||
          !strTruthy (config.machine.bind (·.name)) then
        .error (.missingRequiredField "hop.json missing required fields: machine.id and machine.name")
      else
        .ok config

/-! ## Locator (discovery module, `discoverHopPath`) -/

/-- The configuration filename, `hop.json`. -/
def hopFilename : String := "hop.json"

/-- The parsed settings pointer (`~/.hop/settings.json`); `none` in
`hop_config` models an absent or empty (falsy) field. -/
structure HopSettings where
  hop_config : Option Path := none
  deriving Repr, DecidableEq

/-- The parsed legacy pointer (`~/.hop/config.json`). -/
structure HopPointerConfig where
  hop_config_path : Option Path := none
  deriving Repr, DecidableEq

/-- The environment the locator observes.  `settingsRead` and
`pointerRead` are the outcomes of `readSettings()` / `readPointerConfig()`:
`none` when the file is missing or its JSON fails to parse (both helpers
return null in those cases).  `envConfigPath` is `HOP_CONFIG_PATH`
(`none`: unset or empty, both falsy). -/
structure DiscoverEnv where
  fs : FS
  settingsRead : Option HopSettings
  pointerRead : Option HopPointerConfig
  envConfigPath : Option Path
  cwd : Path

/-- The walk-up loop of step 4: check `dir/hop.json`, then move to the
parent until the root (whose parent is itself) has been checked. -/
def walkUpSearch (fs : FS) (dir : Path) : Option Path :=
  if fs.existsSync (joinPath dir hopFilename) then some (joinPath dir hopFilename)
  else if h : dir = [] then none
  else walkUpSearch fs dir.dropLast
termination_by dir.length
decreasing_by
  have hpos : 0 < dir.length := List.length_pos.mpr h
  simp only [List.length_dropLast]
  omega

/-- `discoverHopPath`: the ordered source list — settings pointer,
environment override, default path, legacy pointer, walk-up search from
`startDir` or the working directory, then the fixed legacy locations;
`none` when nothing resolves. -/
def discoverHopPath (env : DiscoverEnv) (startDir : Option Path) : Option Path :=
  let home := env.fs.home
  let hopDefaultPath := joinPath (joinPath home ".hop") hopFilename
  let step1 : Option Path :=
    match env.settingsRead with
    | some settings =>
        match settings.hop_config with
        | some sc => if env.fs.existsSync sc then some (resolvePath sc) else none
        | none => none
    | none => none
  match step1 with
  | some p => some p
  | none =>
    let step2 : Option Path :=
      match env.envConfigPath with
      | some ep => if env.fs.existsSync ep then some (resolvePath ep) else none
      | none => none
    match step2 with
    | some p => some p
    | none =>
      if env.fs.existsSync hopDefaultPath then some hopDefaultPath
      else
        let step3b : Option Path :=
          match env.pointerRead with
          | some pointer =>
              match pointer.hop_config_path with
              | some pc => if env.fs.existsSync pc then some (resolvePath pc) else none
              | none => none
          | none => none
        match step3b with
        | some p => some p
        | none =>
          match walkUpSearch env.fs
              (match startDir with | some d => resolvePath d | none => env.cwd) with
          | some p => some p
          | none =>
            let legacyPaths : List Path :=
              [joinPath (joinPath home ".config") "hop" ++ [hopFilename],
               ["etc", "hop", hopFilename]]
            match legacyPaths.find? (fun p => env.fs.existsSync p) with
            | some p => some (resolvePath p)
            | none => none

/-! ## Bundle resolution (packages/hop-mcp/src/index.ts, `hop_get_bundle`) -/

/-- One resolved member of a bundle; `missing` models the `_missing: true`
marker attached to names with no matching project (absent, hence false,
on resolved entries). -/
structure ResolvedProject where
  name : String
  path : Option Path
  type : Option String
  missing : Bool
  deriving Repr, DecidableEq

/-- The successful payload of `hop_get_bundle`. -/
structure BundleResolution where
  bundle : Bundle
  primary_project : Option String
  resolved_projects : List ResolvedProject
  deriving Repr, DecidableEq

/-- The outcome of `hop_get_bundle`: the not-found reply carries the
available bundle ids; the found reply carries the resolution. -/
inductive BundleLookup where
  | notFound (available : List String)
  | found (r : BundleResolution)
  deriving Repr, DecidableEq

/-- `hop_get_bundle`: find the bundle by id; resolve each listed project
name against `config.projects`, keeping unresolved names as entries
marked missing; default `primary_project` to the first listed name. -/
def resolveBundleTool (config : HopConfig) (id : String) : BundleLookup :=
  let bundles := config.bundles.getD []
  match bundles.find? (fun b => b.id = id) with
  | none => .notFound (bundles.map (·.id))
  | some bundle =>
      let projects := config.projects.getD []
      let resolved := bundle.projects.map
        (fun nm =>
          match projects.find? (fun proj => proj.name = nm) with
          | some p => { name := p.name, path := p.path, type := p.type, missing := false }
          | none => { name := nm, path := none, type := none, missing := true })
      .found
        { bundle := bundle
          primary_project :=
            match bundle.primary_project with
            | some pp => some pp
            | none => bundle.projects.head?
          resolved_projects := resolved }

/-! ## Masking a filesystem (for the best-effort listing contract) -/

/-- The filesystem `fs` with every directory in `unreadable` made to
throw on listing; existence checks are unaffected. -/
def maskFS (fs : FS) (unreadable : Path → Bool) : FS where
  readdir := fun d => if unreadable d then none else fs.readdir d
  existsSync := fs.existsSync
  home := fs.home

/-! ## Concrete fixtures used by witnesses and counterexamples -/

/-- A machine with agent root `/srv`. -/
def machA : Machine := { id := "m1", name := "Machine One", agent_root := some ["srv"] }

/-- A document registering `/srv/app` and the nonexistent `/gone`. -/
def cfgA : HopConfig :=
  { schema_version := "1.0"
    machine := machA
    projects := some
      [{ name := "app", path := some ["srv", "app"] },
       { name := "ghost", path := some ["gone"] }] }

/-- A filesystem where `/srv` holds the registered `app` and the
unregistered `orphan1`, and `/gone` does not exist. -/
def fsA : FS where
  readdir := fun d =>
    if d = (["srv"] : Path) then
      some [{ name := "app", isDirectory := true },
            { name := "orphan1", isDirectory := true }]
    else none
  existsSync := fun p =>
    p = (["srv"] : Path) || p = (["srv", "app"] : Path) || p = (["srv", "orphan1"] : Path)
  home := ["home", "u"]

/-- A document whose only project registers the home child `/home/u/r`. -/
def cfgB : HopConfig :=
  { schema_version := "1.0"
    machine := { id := "m2", name := "Machine Two" }
    projects := some [{ name := "r", path := some ["home", "u", "r"] }] }

/-- A filesystem where the home child `r` is a registered git repository
containing the unregistered git repository `r/s`. -/
def fsB : FS where
  readdir := fun d =>
    if d = (["home", "u"] : Path) then some [{ name := "r", isDirectory := true }]
    else if d = (["home", "u", "r"] : Path) then some [{ name := "s", isDirectory := true }]
    else none
  existsSync := fun p =>
    p = (["home", "u", "r"] : Path) ||
      p = (["home", "u", "r", ".git"] : Path) ||
        p = (["home", "u", "r", "s"] : Path) ||
          p = (["home", "u", "r", "s", ".git"] : Path)
  home := ["home", "u"]

/-- A filesystem where both the settings-pointer target `/a/hop.json`
and the environment-override target `/b/hop.json` exist. -/
def fsC : FS where
  readdir := fun _ => none
  existsSync := fun p => p = (["a", "hop.json"] : Path) || p = (["b", "hop.json"] : Path)
  home := ["home", "u"]

/-- A locator environment with a settings pointer at `/a/hop.json` and a
simultaneously set environment override at `/b/hop.json`. -/
def envC : DiscoverEnv :=
  { fs := fsC
    settingsRead := some { hop_config := some ["a", "hop.json"] }
    pointerRead := none
    envConfigPath := some ["b", "hop.json"]
    cwd := ["w"] }

/-- A document with the bundle `b1` listing `x` and `y`, of which only
`x` is a project. -/
def cfgD : HopConfig :=
  { schema_version := "1.0"
    machine := { id := "m4", name := "Machine Four" }
    projects := some [{ name := "x", path := some ["px"], type := some "service" }]
    bundles := some
      [{ id := "b1", name := "Bundle One", projects := ["x", "y"] }] }

/-- A parsed document whose required fields are all present and truthy. -/
def rawOK : RawConfig :=
  { schema_version := some "1.0"
    machine := some { id := some "m5", name := some "Machine Five" } }

/-- A parsed document whose `schema_version` is present but empty. -/
def rawEmptySchema : RawConfig :=
  { schema_version := some ""
    machine := some { id := some "m6", name := some "Machine Six" } }

/-! # Helper lemmas -/

theorem strTruthy_false_iff (o : Option String) :
    strTruthy o = false ↔ ¬ ∃ s, o = some s ∧ s ≠ "" := by
  cases o <;> simp [strTruthy]

theorem mem_keys_addToSystem (m : List (String × SystemGroup)) (key : String)
    (upd : SystemGroup → SystemGroup) (k : String) :
    k ∈ (addToSystem m key upd).map Prod.fst ↔ k ∈ m.map Prod.fst ∨ k = key := by
  unfold addToSystem
  split
  · rename_i hany
    have hmap : (m.map (fun kv => if kv.1 = key then (kv.1, upd kv.2) else kv)).map Prod.fst
        = m.map Prod.fst := by
      rw [List.map_map]
      apply List.map_congr_left
      intro kv _
      by_cases h : kv.1 = key <;> simp [h]
    rw [hmap]
    constructor
    · exact Or.inl
    · rintro (h | rfl)
      · exact h
      · simp only [List.any_eq_true, decide_eq_true_eq] at hany
        obtain ⟨kv, hkv, hk⟩ := hany
        rw [List.mem_map]
        exact ⟨kv, hkv, hk⟩
  · simp [List.map_append]

theorem mem_keys_foldl_projectStep (l : List Project)
    (m : List (String × SystemGroup)) (k : String) :
    k ∈ (l.foldl projectStep m).map Prod.fst ↔
      k ∈ m.map Prod.fst ∨ ∃ p ∈ l, p.system = some k ∧ k ≠ "" := by
  induction l generalizing m with
  | nil => simp
  | cons p l ih =>
    rw [List.foldl_cons, ih]
    have hstep : k ∈ (projectStep m p).map Prod.fst ↔
        k ∈ m.map Prod.fst ∨ (p.system = some k ∧ k ≠ "") := by
      cases hsys : p.system with
      | none => simp [projectStep, hsys]
      | some s =>
        by_cases hs : s = ""
        · subst hs
          simp only [projectStep, hsys, ne_eq, not_true_eq_false, if_false]
          constructor
          · exact Or.inl
          · rintro (h | ⟨hsk, hk⟩)
            · exact h
            · exact absurd (Option.some_inj.mp hsk).symm hk
        · simp only [projectStep, hsys]
          rw [if_pos hs, mem_keys_addToSystem]
          constructor
          · rintro (h | rfl)
            · exact Or.inl h
            · exact Or.inr ⟨rfl, hs⟩
          · rintro (h | ⟨hsk, _⟩)
            · exact Or.inl h
            · obtain rfl := Option.some_inj.mp hsk
              exact Or.inr rfl
    rw [hstep]
    simp only [List.exists_mem_cons_iff]
    tauto

theorem mem_keys_foldl_infraStep (l : List InfraRepoInput)
    (m : List (String × SystemGroup)) (k : String) :
    k ∈ (l.foldl infraStep m).map Prod.fst ↔
      k ∈ m.map Prod.fst ∨ ∃ r ∈ l, (normalizeInfraRepo r).system = some k ∧ k ≠ "" := by
  induction l generalizing m with
  | nil => simp
  | cons r l ih =>
    rw [List.foldl_cons, ih]
    have hstep : k ∈ (infraStep m r).map Prod.fst ↔
        k ∈ m.map Prod.fst ∨ ((normalizeInfraRepo r).system = some k ∧ k ≠ "") := by
      cases hsys : (normalizeInfraRepo r).system with
      | none => simp [infraStep, hsys]
      | some s =>
        by_cases hs : s = ""
        · subst hs
          simp only [infraStep, hsys, ne_eq, not_true_eq_false, if_false]
          constructor
          · exact Or.inl
          · rintro (h | ⟨hsk, hk⟩)
            · exact h
            · exact absurd (Option.some_inj.mp hsk).symm hk
        · simp only [infraStep, hsys]
          rw [if_pos hs, mem_keys_addToSystem]
          constructor
          · rintro (h | rfl)
            · exact Or.inl h
            · exact Or.inr ⟨rfl, hs⟩
          · rintro (h | ⟨hsk, _⟩)
            · exact Or.inl h
            · obtain rfl := Option.some_inj.mp hsk
              exact Or.inr rfl
    rw [hstep]
    simp only [List.exists_mem_cons_iff]
    tauto

theorem mem_keys_collectSystems (config : HopConfig) (k : String) :
    k ∈ (collectSystems config).map Prod.fst ↔
      ((∃ p ∈ config.projects.getD [], p.system = some k ∧ k ≠ "") ∨
       ∃ r ∈ (config.infra_repos.bind (·.repos)).getD [],
         (normalizeInfraRepo r).system = some k ∧ k ≠ "") := by
  unfold collectSystems
  rw [mem_keys_foldl_infraStep, mem_keys_foldl_projectStep]
  simp

theorem contains_iff_mem_path (l : List Path) (x : Path) :
    l.contains x = true ↔ x ∈ l := by
  simp [List.contains, List.elem_iff]

theorem contains_eq_false_iff (l : List Path) (x : Path) :
    l.contains x = false ↔ x ∉ l := by
  rw [← contains_iff_mem_path]
  cases l.contains x <;> simp

theorem mem_listChildDirs (fs : FS) (d c : Path) (h : c ∈ listChildDirs fs d) :
    ∃ n, c = d ++ [n] := by
  unfold listChildDirs at h
  cases hrd : fs.readdir d with
  | none =>
      rw [hrd] at h
      simp at h
  | some entries =>
      rw [hrd] at h
      rw [List.mem_map] at h
      obtain ⟨e, _, heq⟩ := h
      exact ⟨e.name, heq.symm⟩

theorem mem_foldl_projectPaths_init (l : List Project) (acc : List Path) (x : Path)
    (hx : x ∈ acc) :
    x ∈ l.foldl
      (fun acc p =>
        match p.path with
        | some pp => acc ++ [resolvePath pp]
        | none => acc) acc := by
  induction l generalizing acc with
  | nil => simpa using hx
  | cons q l ih =>
      rw [List.foldl_cons]
      apply ih
      cases hq : q.path with
      | none => simpa using hx
      | some qq => exact List.mem_append_left _ hx

theorem mem_foldl_projectPaths (l : List Project) (acc : List Path) (p : Project)
    (pp : Path) (hpath : p.path = some pp) :
    p ∈ l → resolvePath pp ∈ l.foldl
      (fun acc q =>
        match q.path with
        | some qq => acc ++ [resolvePath qq]
        | none => acc) acc := by
  induction l generalizing acc with
  | nil =>
      intro hp
      cases hp
  | cons q l ih =>
      intro hp
      rw [List.foldl_cons]
      rcases List.mem_cons.mp hp with rfl | hmem
      · apply mem_foldl_projectPaths_init
        rw [hpath]
        exact List.mem_append_right _ (List.mem_singleton.mpr rfl)
      · exact ih _ hmem

theorem project_path_mem_registered (config : HopConfig) (p : Project) (pp : Path)
    (hp : p ∈ config.projects.getD []) (hpath : p.path = some pp) :
    resolvePath pp ∈ getRegisteredPaths config := by
  have hproj : resolvePath pp ∈ projectRegisteredPaths config :=
    mem_foldl_projectPaths _ [] p pp hpath hp
  unfold getRegisteredPaths
  cases config.infra_repos.bind (·.path) with
  | none => exact hproj
  | some infraBase => exact List.mem_append_left _ hproj

theorem orphans_path_unregistered (fs : FS) (config : HopConfig) (scan : Bool) :
    ∀ e ∈ (computeAudit fs config scan).orphans,
      (getRegisteredPaths config).contains e.path = false := by
  intro e he
  simp only [computeAudit] at he
  rw [List.mem_flatMap] at he
  obtain ⟨D, _, he⟩ := he
  unfold orphansForDir at he
  rw [List.mem_map] at he
  obtain ⟨child, hchild, rfl⟩ := he
  rw [List.mem_filter] at hchild
  simpa using hchild.2

theorem strays_path_unregistered (fs : FS) (reg mdirs : List Path) :
    ∀ e ∈ scanForStrays fs reg mdirs, reg.contains e.path = false := by
  intro e he
  unfold scanForStrays at he
  rw [List.mem_flatMap] at he
  obtain ⟨dir, _, he⟩ := he
  unfold strayChildScan at he
  split at he
  · simp at he
  · split at he
    · rename_i hcond
      rw [List.mem_singleton] at he
      subst he
      simp only [Bool.and_eq_true, Bool.not_eq_true'] at hcond
      simpa using hcond.2
    · rw [List.mem_map] at he
      obtain ⟨sub, hsub, rfl⟩ := he
      rw [List.mem_filter] at hsub
      have hcond := hsub.2
      simp only [Bool.and_eq_true, Bool.not_eq_true'] at hcond
      simpa using hcond.2.2

theorem mem_staleEntries (fs : FS) (config : HopConfig) (e : AuditEntry) :
    e ∈ staleEntries fs config ↔
      ∃ p ∈ config.projects.getD [], ∃ pp,
        p.path = some pp ∧ fs.existsSync pp = false ∧
          e = { name := p.name, path := pp, source := "projects", has_git := false } := by
  unfold staleEntries
  rw [List.mem_filterMap]
  constructor
  · rintro ⟨p, hp, hf⟩
    cases hpath : p.path with
    | none =>
        rw [hpath] at hf
        simp at hf
    | some pp =>
        rw [hpath] at hf
        by_cases hex : fs.existsSync pp
        · simp [hex] at hf
        · simp only [hex, Bool.not_false, if_true, Option.some_inj] at hf
          exact ⟨p, hp, pp, hpath, by simp [hex], hf.symm⟩
  · rintro ⟨p, hp, pp, hpath, hex, rfl⟩
    refine ⟨p, hp, ?_⟩
    rw [hpath]
    simp [hex]

/-! # Claim theorems -/

/-- C9: `collectSystems(doc)` returns an empty map iff no project and no
infra-repo entry anywhere in `doc` carries a non-empty `system` field;
entries without a (non-empty) system tag are excluded entirely rather
than bucketed under a sentinel key — every key of the map is the
non-empty tag of some entry, and conversely. -/
theorem collectSystems_empty_iff (config : HopConfig) :
    (collectSystems config = [] ↔
      ((∀ p ∈ config.projects.getD [], strTruthy p.system = false) ∧
       ∀ r ∈ (config.infra_repos.bind (·.repos)).getD [],
         strTruthy (normalizeInfraRepo r).system = false)) ∧
    ∀ k : String, k ∈ (collectSystems config).map Prod.fst ↔
      ((∃ p ∈ config.projects.getD [], p.system = some k ∧ k ≠ "") ∨
       ∃ r ∈ (config.infra_repos.bind (·.repos)).getD [],
         (normalizeInfraRepo r).system = some k ∧ k ≠ "") := by
  refine ⟨?_, fun k => mem_keys_collectSystems config k⟩
  constructor
  · intro hnil
    constructor
    · intro p hp
      rw [strTruthy_false_iff]
      rintro ⟨s, hs, hne⟩
      have hmem := (mem_keys_collectSystems config s).mpr (Or.inl ⟨p, hp, hs, hne⟩)
      rw [hnil] at hmem
      simp at hmem
    · intro r hr
      rw [strTruthy_false_iff]
      rintro ⟨s, hs, hne⟩
      have hmem := (mem_keys_collectSystems config s).mpr (Or.inr ⟨r, hr, hs, hne⟩)
      rw [hnil] at hmem
      simp at hmem
  · rintro ⟨hp, hr⟩
    by_contra hne
    obtain ⟨⟨k, g⟩, hkv⟩ := List.exists_mem_of_ne_nil _ hne
    have hk : k ∈ (collectSystems config).map Prod.fst :=
      List.mem_map.mpr ⟨(k, g), hkv, rfl⟩
    rcases (mem_keys_collectSystems config k).mp hk with
        ⟨p, hpmem, hsys, hk0⟩ | ⟨r, hrmem, hsys, hk0⟩
    · have hfalse := hp p hpmem
      rw [strTruthy_false_iff] at hfalse
      exact hfalse ⟨k, hsys, hk0⟩
    · have hfalse := hr r hrmem
      rw [strTruthy_false_iff] at hfalse
      exact hfalse ⟨k, hsys, hk0⟩

/-- C5: for valid JSON, `loadHopConfig` fails iff the root lacks a truthy
`schema_version` or the machine object lacks a truthy `id` or `name`
(the missing-required-field condition); otherwise it returns the parsed
document unchanged, with no other validation.  Invalid JSON fails with a
parse-error condition distinguishable from the missing-field condition. -/
theorem loadHopConfig_contract (c : RawConfig) :
    ((∃ msg, loadHopConfig (some c) = .error (.missingRequiredField msg)) ↔
      (strTruthy c.schema_version = false ∨
       strTruthy (c.machine.bind (·.id)) = false ∨
       strTruthy (c.machine.bind (·.name)) = false)) ∧
    ((strTruthy c.schema_version = true ∧
      strTruthy (c.machine.bind (·.id)) = true ∧
      strTruthy (c.machine.bind (·.name)) = true) →
        loadHopConfig (some c) = .ok c) ∧
    (∃ msg, loadHopConfig none = .error (.parseError msg) ∧
      ∀ m, LoadError.parseError msg ≠ LoadError.missingRequiredField m) := by
  cases hsv : strTruthy c.schema_version <;>
    cases hid : strTruthy (c.machine.bind (·.id)) <;>
      cases hnm : strTruthy (c.machine.bind (·.name)) <;>
        simp [loadHopConfig, hsv, hid, hnm]

/-- C10: when a document parses as JSON but `schema_version`,
`machine.id`, or `machine.name` is present and equal to the empty
string, `loadHopConfig` throws the missing-required-field error — the
presence checks are truthiness checks, so an empty string behaves the
same as an absent field. -/
theorem loadHopConfig_empty_string (c : RawConfig)
    (h : c.schema_version = some "" ∨
      c.machine.bind (·.id) = some "" ∨
      c.machine.bind (·.name) = some "") :
    ∃ msg, loadHopConfig (some c) = .error (.missingRequiredField msg) := by
  have hone : strTruthy c.schema_version = false ∨
      strTruthy (c.machine.bind (·.id)) = false ∨
      strTruthy (c.machine.bind (·.name)) = false := by
    rcases h with h | h | h <;> rw [h] <;> simp [strTruthy]
  cases hsv : strTruthy c.schema_version <;>
    cases hid : strTruthy (c.machine.bind (·.id)) <;>
      cases hnm : strTruthy (c.machine.bind (·.name)) <;>
        simp [loadHopConfig, hsv, hid, hnm] <;>
          simp [hsv, hid, hnm] at hone

/-- Witness for C10 at a concrete document: `schema_version` present but
empty triggers the missing-required-field error. -/
theorem loadHopConfig_empty_string_witness :
    ∃ msg, loadHopConfig (some rawEmptySchema) = .error (.missingRequiredField msg) :=
  loadHopConfig_empty_string rawEmptySchema (Or.inl rfl)

/-- Witness for C5 at a concrete document with all required fields
truthy: the loader returns the document unchanged. -/
theorem loadHopConfig_contract_witness :
    loadHopConfig (some rawOK) = .ok rawOK :=
  (loadHopConfig_contract rawOK).2.1 ⟨by decide, by decide, by decide⟩

/-- C8: when a bundle is found by id, `hop_get_bundle` returns exactly
one resolved entry per listed project name, in list order; a name with
no matching project is still returned, marked missing, rather than
dropped; the found case never produces the error reply. -/
theorem resolveBundleTool_found (config : HopConfig) (id : String) (b : Bundle)
    (hb : (config.bundles.getD []).find? (fun x => x.id = id) = some b) :
    ∃ res : BundleResolution, resolveBundleTool config id = .found res ∧
      res.resolved_projects.length = b.projects.length ∧
      ∀ (i : Nat) (nm : String), b.projects[i]? = some nm →
        ∃ entry : ResolvedProject, res.resolved_projects[i]? = some entry ∧
          entry.name = nm ∧
          (entry.missing = true ↔ ∀ p ∈ config.projects.getD [], p.name ≠ nm) := by
  refine ⟨_, by rw [resolveBundleTool, hb], by simp, ?_⟩
  intro i nm hnm
  simp only [List.getElem?_map, hnm, Option.map_some]
  refine ⟨_, rfl, ?_⟩
  beta_reduce
  cases hfind : (config.projects.getD []).find? (fun proj => proj.name = nm) with
  | some p =>
      have hname : p.name = nm := by
        have := List.find?_some hfind
        simpa using this
      refine ⟨hname, ?_⟩
      constructor
      · intro hft
        exact absurd hft (by simp)
      · intro hall
        exact absurd hname (hall p (List.mem_of_find?_eq_some hfind))
  | none =>
      refine ⟨rfl, ?_⟩
      constructor
      · intro _ p hp
        have := List.find?_eq_none.mp hfind p hp
        simpa using this
      · intro _
        rfl

/-- Witness for C8 at the spec's scenario: bundle `b1` lists `x` and
`y`, only `x` is a project; both entries are returned in order and the
second is marked missing. -/
theorem resolveBundleTool_found_witness :
    ∃ res, resolveBundleTool cfgD "b1" = .found res ∧
      res.resolved_projects.length =
        ({ id := "b1", name := "Bundle One", projects := ["x", "y"] } : Bundle).projects.length ∧
      ∀ (i : Nat) (nm : String),
        ({ id := "b1", name := "Bundle One", projects := ["x", "y"] } : Bundle).projects[i]? = some nm →
        ∃ entry : ResolvedProject, res.resolved_projects[i]? = some entry ∧
          entry.name = nm ∧
          (entry.missing = true ↔ ∀ p ∈ cfgD.projects.getD [], p.name ≠ nm) :=
  resolveBundleTool_found cfgD "b1"
    { id := "b1", name := "Bundle One", projects := ["x", "y"] } (by decide)

/-- C4: when the settings pointer parses to a record whose `hop_config`
names an existing path, `discoverHopPath` returns that path, even when
the environment-variable override is simultaneously set to a path that
also exists. -/
theorem discoverHopPath_settings_wins (env : DiscoverEnv) (startDir : Option Path)
    (s : HopSettings) (sc : Path)
    (hs : env.settingsRead = some s) (hc : s.hop_config = some sc)
    (hex : env.fs.existsSync sc = true)
    (ep : Path) (he : env.envConfigPath = some ep)
    (heex : env.fs.existsSync ep = true) :
    discoverHopPath env startDir = some (resolvePath sc) := by
  simp [discoverHopPath, hs, hc, hex]

/-- Witness for C4 at the spec's scenario: settings pointer at
`/a/hop.json` and environment override at `/b/hop.json`, both existing;
discovery returns `/a/hop.json`. -/
theorem discoverHopPath_settings_wins_witness :
    discoverHopPath envC none = some (resolvePath ["a", "hop.json"]) :=
  discoverHopPath_settings_wins envC none
    { hop_config := some ["a", "hop.json"] } ["a", "hop.json"]
    rfl rfl (by decide) ["b", "hop.json"] rfl (by decide)

/-- C1: for every managed directory `D` examined by audit, the orphan
entries reported for `D` are exactly the observed child directories of
`D` (hidden names and the skip-set already excluded by the listing) that
are not registered — `C minus R` — and the whole orphan set is disjoint
from the registered-path set. -/
theorem audit_orphans_exactly_unregistered (fs : FS) (config : HopConfig)
    (scan : Bool) (D : Path)
    (hD : D ∈ (computeAudit fs config scan).managed_dirs) :
    ((orphansForDir fs (getRegisteredPaths config) D).map (fun e => e.path) =
       (listChildDirs fs D).filter
         (fun c => !(getRegisteredPaths config).contains c)) ∧
    ((computeAudit fs config scan).orphans =
       (computeAudit fs config scan).managed_dirs.flatMap
         (orphansForDir fs (getRegisteredPaths config))) ∧
    (∀ e ∈ (computeAudit fs config scan).orphans,
       (getRegisteredPaths config).contains e.path = false) := by
  refine ⟨?_, rfl, orphans_path_unregistered fs config scan⟩
  unfold orphansForDir
  rw [List.map_map]
  apply List.map_id''
  intro x
  rfl

/-- Witness for C1 at a concrete state: the managed directory `/srv`
holds the registered `app` and the unregistered `orphan1`. -/
theorem audit_orphans_exactly_unregistered_witness :
    ((orphansForDir fsA (getRegisteredPaths cfgA) ["srv"]).map (fun e => e.path) =
       (listChildDirs fsA ["srv"]).filter
         (fun c => !(getRegisteredPaths cfgA).contains c)) ∧
    ((computeAudit fsA cfgA false).orphans =
       (computeAudit fsA cfgA false).managed_dirs.flatMap
         (orphansForDir fsA (getRegisteredPaths cfgA))) ∧
    (∀ e ∈ (computeAudit fsA cfgA false).orphans,
       (getRegisteredPaths cfgA).contains e.path = false) :=
  audit_orphans_exactly_unregistered fsA cfgA false ["srv"] (by decide)

/-- C6: a project whose declared (truthy) path does not exist on disk is
reported in the stale list; its path never appears among the orphans or
strays (it is registered, and those lists only hold unregistered paths);
and every stale entry originates from a project entry — infra repos are
never reported stale. -/
theorem audit_stale_projects (fs : FS) (config : HopConfig) (scan : Bool)
    (p : Project) (pp : Path)
    (hp : p ∈ config.projects.getD []) (hpath : p.path = some pp)
    (hmiss : fs.existsSync pp = false) :
    (({ name := p.name, path := pp, source := "projects", has_git := false } : AuditEntry)
        ∈ (computeAudit fs config scan).stale) ∧
    (∀ e ∈ (computeAudit fs config scan).orphans, e.path ≠ resolvePath pp) ∧
    (∀ e ∈ (computeAudit fs config scan).strays, e.path ≠ resolvePath pp) ∧
    (∀ e ∈ (computeAudit fs config scan).stale,
       e.source = "projects" ∧ ∃ q ∈ config.projects.getD [],
         q.path = some e.path ∧ q.name = e.name ∧ fs.existsSync e.path = false) := by
  have hreg : (getRegisteredPaths config).contains (resolvePath pp) = true :=
    (contains_iff_mem_path _ _).mpr (project_path_mem_registered config p pp hp hpath)
  refine ⟨?_, ?_, ?_, ?_⟩
  · show _ ∈ staleEntries fs config
    rw [mem_staleEntries]
    exact ⟨p, hp, pp, hpath, hmiss, rfl⟩
  · intro e he heq
    have hfalse := orphans_path_unregistered fs config scan e he
    rw [heq, hreg] at hfalse
    cases hfalse
  · intro e he heq
    have he' : e ∈ scanForStrays fs (getRegisteredPaths config) (getManagedDirs fs config) := by
      simp only [computeAudit] at he
      cases scan with
      | true => exact he
      | false => cases he
    have hfalse := strays_path_unregistered fs _ _ e he'
    rw [heq, hreg] at hfalse
    cases hfalse
  · intro e he
    rw [show (computeAudit fs config scan).stale = staleEntries fs config from rfl,
      mem_staleEntries] at he
    obtain ⟨q, hq, qq, hqpath, hqex, rfl⟩ := he
    exact ⟨rfl, q, hq, hqpath, rfl, hqex⟩

/-- Witness for C6 at a concrete state: the project `ghost` declares the
nonexistent path `/gone` and is reported stale. -/
theorem audit_stale_projects_witness :
    (({ name := "ghost", path := ["gone"], source := "projects", has_git := false } : AuditEntry)
        ∈ (computeAudit fsA cfgA false).stale) ∧
    (∀ e ∈ (computeAudit fsA cfgA false).orphans, e.path ≠ resolvePath ["gone"]) ∧
    (∀ e ∈ (computeAudit fsA cfgA false).strays, e.path ≠ resolvePath ["gone"]) ∧
    (∀ e ∈ (computeAudit fsA cfgA false).stale,
       e.source = "projects" ∧ ∃ q ∈ cfgA.projects.getD [],
         q.path = some e.path ∧ q.name = e.name ∧ fsA.existsSync e.path = false) :=
  audit_stale_projects fsA cfgA false { name := "ghost", path := some ["gone"] }
    ["gone"] (by decide) rfl (by decide)

/-- C7: unreadable directories are treated as empty child sets rather
than failures, and masking any set of directories as unreadable leaves
untouched the stale list, the managed-directory set, the orphans of each
still-readable managed directory, and the stray contribution of each
still-readable home child — the audit keeps producing everything
derivable from the readable directories. -/
theorem audit_best_effort (fs : FS) (unreadable : Path → Bool)
    (config : HopConfig) (scan : Bool) :
    (∀ d, unreadable d = true → listChildDirs (maskFS fs unreadable) d = []) ∧
    ((computeAudit (maskFS fs unreadable) config scan).stale =
       (computeAudit fs config scan).stale) ∧
    ((computeAudit (maskFS fs unreadable) config scan).managed_dirs =
       (computeAudit fs config scan).managed_dirs) ∧
    (∀ D, unreadable D = false →
       orphansForDir (maskFS fs unreadable) (getRegisteredPaths config) D =
         orphansForDir fs (getRegisteredPaths config) D) ∧
    (∀ c, unreadable c = false →
       strayChildScan (maskFS fs unreadable) (getRegisteredPaths config)
           (getManagedDirs fs config) c =
         strayChildScan fs (getRegisteredPaths config) (getManagedDirs fs config) c) := by
  refine ⟨?_, rfl, rfl, ?_, ?_⟩
  · intro d hd
    unfold listChildDirs maskFS
    simp [hd]
  · intro D hD
    have hlist : listChildDirs (maskFS fs unreadable) D = listChildDirs fs D := by
      unfold listChildDirs maskFS
      simp [hD]
    unfold orphansForDir
    rw [hlist]
    rfl
  · intro c hc
    have hlist : listChildDirs (maskFS fs unreadable) c = listChildDirs fs c := by
      unfold listChildDirs maskFS
      simp [hc]
    unfold strayChildScan
    rw [hlist]
    rfl

/-- Witness for C7 at a concrete state: masking `/blocked` yields an
empty listing for it while the orphans of the readable managed directory
`/srv` are unchanged. -/
theorem audit_best_effort_witness :
    listChildDirs (maskFS fsA (fun d => decide (d = ["blocked"]))) ["blocked"] = [] ∧
    orphansForDir (maskFS fsA (fun d => decide (d = ["blocked"])))
        (getRegisteredPaths cfgA) ["srv"] =
      orphansForDir fsA (getRegisteredPaths cfgA) ["srv"] :=
  ⟨(audit_best_effort fsA (fun d => decide (d = ["blocked"])) cfgA false).1
      ["blocked"] (by decide),
   (audit_best_effort fsA (fun d => decide (d = ["blocked"])) cfgA false).2.2.2.1
      ["srv"] (by decide)⟩

/-- Counterexample to C3 as stated: with JSON output requested,
`runAudit` returns right after printing, before the exit-code logic, so
the exit status is the success status even though the result holds an
orphan and a stale entry. -/
theorem runAudit_json_exit_counterexample :
    (computeAudit fsA cfgA false).orphans ≠ [] ∧
    (computeAudit fsA cfgA false).stale ≠ [] ∧
    runAuditExitCode fsA cfgA { json := true, scan := false } = 0 := by
  refine ⟨by decide, by decide, rfl⟩

/-- C3 amended: in human-readable mode the exit status is non-zero
exactly when the result contains at least one orphan or stale entry
(strays alone never trigger it), but in JSON mode the function returns
before the exit-code logic and the status is always the success
status. -/
theorem runAudit_exit_policy (fs : FS) (config : HopConfig) (scan : Bool) :
    (runAuditExitCode fs config { json := false, scan := scan } ≠ 0 ↔
       ((computeAudit fs config scan).orphans ≠ [] ∨
        (computeAudit fs config scan).stale ≠ [])) ∧
    runAuditExitCode fs config { json := true, scan := scan } = 0 := by
  constructor
  · cases ho : (computeAudit fs config scan).orphans <;>
      cases hs : (computeAudit fs config scan).stale <;>
        simp [runAuditExitCode, ho, hs]
  · rfl

/-- Counterexample to C2 as stated: the home child `r` carries a
repository marker yet the scan descends into it (it is listed during the
stray scan) because it is registered, and its unregistered grandchild
`r/s` is reported as a stray. -/
theorem scanForStrays_descends_into_marked_counterexample :
    hasGit fsB ["home", "u", "r"] = true ∧
    (getRegisteredPaths cfgB).contains ["home", "u", "r"] = true ∧
    ["home", "u", "r"] ∈
      scanExaminedDirs fsB (getRegisteredPaths cfgB) (getManagedDirs fsB cfgB) ∧
    (computeAudit fsB cfgB true).strays =
      [{ name := "s", path := ["home", "u", "r", "s"],
         source := "~/r/s", has_git := true }] := by
  refine ⟨rfl, rfl, by decide, by decide⟩

/-- C2 amended: for every non-managed immediate child of home, an
unregistered marker-bearing child is reported as a stray and not
descended into; every other child — including a registered marker-bearing
one — is descended exactly one more level, where each non-managed
unregistered marker-bearing grandchild is reported; the scan only ever
lists home and its immediate children, so nothing deeper than two levels
below home is examined. -/
theorem scanForStrays_bounded_characterization (fs : FS) (config : HopConfig)
    (c : Path) (hcm : c ∈ listChildDirs fs fs.home)
    (hnm : (getManagedDirs fs config).contains c = false) :
    ((hasGit fs c = true ∧ (getRegisteredPaths config).contains c = false) →
       strayChildScan fs (getRegisteredPaths config) (getManagedDirs fs config) c =
           [{ name := basename c, path := c,
              source := "~/" ++ basename c, has_git := true }] ∧
         c ∉ scanExaminedDirs fs (getRegisteredPaths config) (getManagedDirs fs config)) ∧
    (¬(hasGit fs c = true ∧ (getRegisteredPaths config).contains c = false) →
       strayChildScan fs (getRegisteredPaths config) (getManagedDirs fs config) c =
           ((listChildDirs fs c).filter
               (fun sub => !(getManagedDirs fs config).contains sub &&
                 (hasGit fs sub && !(getRegisteredPaths config).contains sub))).map
             (fun sub =>
               { name := basename sub, path := sub,
                 source := "~/" ++ basename c ++ "/" ++ basename sub,
                 has_git := true }) ∧
         c ∈ scanExaminedDirs fs (getRegisteredPaths config) (getManagedDirs fs config)) ∧
    ((computeAudit fs config true).strays =
       (listChildDirs fs fs.home).flatMap
         (strayChildScan fs (getRegisteredPaths config) (getManagedDirs fs config))) ∧
    (∀ d ∈ scanExaminedDirs fs (getRegisteredPaths config) (getManagedDirs fs config),
       d = fs.home ∨ ∃ n, d = fs.home ++ [n]) := by
  have hnm' : c ∉ getManagedDirs fs config := (contains_eq_false_iff _ _).mp hnm
  refine ⟨?_, ?_, rfl, ?_⟩
  · rintro ⟨hg, hr⟩
    have hr' : c ∉ getRegisteredPaths config := (contains_eq_false_iff _ _).mp hr
    constructor
    · unfold strayChildScan
      simp [hnm, hnm', hg, hr, hr']
    · intro hmem
      unfold scanExaminedDirs at hmem
      rcases List.mem_cons.mp hmem with heq | hmem
      · obtain ⟨n, rfl⟩ := mem_listChildDirs fs fs.home c hcm
        simp at heq
      · rw [List.mem_filter] at hmem
        have hcond := hmem.2
        simp [hnm, hnm', hg, hr, hr'] at hcond
  · intro hneg
    have hcond : (hasGit fs c && !(getRegisteredPaths config).contains c) = false := by
      cases hhg : hasGit fs c with
      | false => simp [hhg]
      | true =>
          cases hhr : (getRegisteredPaths config).contains c with
          | true => simp [hhg, hhr]
          | false => exact absurd ⟨hhg, hhr⟩ hneg
    constructor
    · unfold strayChildScan
      have h1 : ¬((getManagedDirs fs config).contains c = true) := by
        rw [hnm]
        exact Bool.false_ne_true
      have h2 : ¬((hasGit fs c && !(getRegisteredPaths config).contains c) = true) := by
        rw [hcond]
        exact Bool.false_ne_true
      rw [if_neg h1, if_neg h2]
    · unfold scanExaminedDirs
      apply List.mem_cons_of_mem
      rw [List.mem_filter]
      refine ⟨hcm, ?_⟩
      show (!(getManagedDirs fs config).contains c &&
        !(hasGit fs c && !(getRegisteredPaths config).contains c)) = true
      rw [hnm, hcond]
      rfl
  · intro d hd
    unfold scanExaminedDirs at hd
    rcases List.mem_cons.mp hd with rfl | hd
    · exact Or.inl rfl
    · rw [List.mem_filter] at hd
      obtain ⟨n, rfl⟩ := mem_listChildDirs fs fs.home d hd.1
      exact Or.inr ⟨n, rfl⟩

/-- Witness for the amended C2 at a concrete state: the registered
marker-bearing child `r` is descended into, and every examined directory
is home or one of its immediate children. -/
theorem scanForStrays_bounded_characterization_witness :
    (["home", "u", "r"] ∈
       scanExaminedDirs fsB (getRegisteredPaths cfgB) (getManagedDirs fsB cfgB)) ∧
    (∀ d ∈ scanExaminedDirs fsB (getRegisteredPaths cfgB) (getManagedDirs fsB cfgB),
       d = fsB.home ∨ ∃ n, d = fsB.home ++ [n]) :=
  ⟨((scanForStrays_bounded_characterization fsB cfgB ["home", "u", "r"]
        (by decide) (by decide)).2.1 (by decide)).2,
   (scanForStrays_bounded_characterization fsB cfgB ["home", "u", "r"]
        (by decide) (by decide)).2.2.2⟩

end HopSpec
